import Mathlib

/-!
Verification of the trolog structured logger (repository mdtolhabinashraf/trolog).

The development embeds the logger's record-formatting and dispatch pipeline as
executable Lean definitions and proves the specification's claims about it.
The authoritative emission pipeline is the one of package trolog
(src/unnamed/part_001): its line layout (sequence ID first) matches the
repository README and the specification.  The sibling lineage variant
(src/logger.go, package troLogger) is embedded where a claim cites it
exclusively, namely its bounded intToString routine.

Modelling conventions:
- Byte buffers are List Char (the logger only ever emits ASCII around the
  caller-supplied strings).
- Go's float64 values are modelled exactly as integer fractions
  (numerator : Int, denominator : Nat); the arithmetic the code performs on
  them (truncating conversion to int, subtraction, scaling by 100) is exact
  on such fractions.  IEEE rounding of literals is not modelled; it does not
  affect the truncation-versus-rounding distinction the claims are about.
- The process-wide int32 counter is modelled by an Int together with the
  32-bit wraparound function wrap32; atomic.AddInt32 returns wrap32 (c + 1).
- Sinks are modelled by the byte sequences they receive during one call;
  file handles and writer identities are plain numeric tags.
- time.Now is external input: the RFC3339 timestamp enters the model as an
  arbitrary string argument, exactly as buildLogMessage receives it.
- The field stores of living Logger instances are modelled, for the
  copy-on-derive claim, by a heap of field maps addressed by index, so that
  writing through one reference observably cannot change another.
-/

/-- Log severity levels, from src/unnamed/part_001 lines 16-25 (identical in
src/logger.go): Debug, Info, Warn, Error, Panic, Trace, declared in this
order with consecutive integer values starting at 0. -/
inductive LogLevel where
  | debugLevel
  | infoLevel
  | warnLevel
  | errorLevel
  | panicLevel
  | traceLevel
deriving DecidableEq, Repr

/-- Numeric rank of a level: the integer value Go assigns by iota, used by
the comparison level >= l.level in log. -/
def rank : LogLevel → Nat
  | .debugLevel => 0
  | .infoLevel => 1
  | .warnLevel => 2
  | .errorLevel => 3
  | .panicLevel => 4
  | .traceLevel => 5

/-- Display string of a level: lookup of logLevelStrings by the level's
rank, src/unnamed/part_001 lines 27-29.  The seventh entry UNKNOWN is
unreachable for values of the closed enumeration. -/
def levelString : LogLevel → String
  | .debugLevel => "DEBU"
  | .infoLevel => "INFO"
  | .warnLevel => "WARN"
  | .errorLevel => "ERRO"
  | .panicLevel => "PANI"
  | .traceLevel => "TRAC"

/-- ANSI color escape for a level, from getColor, src/unnamed/part_001
lines 215-228 (identical in src/logger.go lines 204-217). -/
def getColor : LogLevel → String
  | .debugLevel => "\x1b[36m"
  | .infoLevel => "\x1b[32m"
  | .warnLevel => "\x1b[33m"
  | .errorLevel => "\x1b[31m"
  | _ => "\x1b[0m"

/-- Two-to-the-31 as an integer numeral. -/
def int32Half : Int := 2147483648

/-- Two-to-the-32 as an integer numeral. -/
def int32Mod : Int := 4294967296

/-- Wraparound of an unbounded integer to the int32 range, modelling Go's
two's-complement int32 arithmetic used by atomic.AddInt32 on logIDCounter
(src/unnamed/part_001 line 31 and 102). -/
def wrap32 (n : Int) : Int := (n + int32Half) % int32Mod - int32Half

/-- Decimal digit character, as produced by strconv (value 0-9 maps to the
characters 0-9). -/
def digitChar10 (d : Nat) : Char := Char.ofNat (48 + d)

/-- Most-significant-first decimal digits of a natural number.  The first
argument is recursion fuel; any fuel strictly larger than the number of
digits yields the standard representation (established by the stability
lemma below).  This models the exact decimal conversion strconv.Itoa and
strconv.AppendInt perform. -/
def natChars : Nat → Nat → List Char
  | 0, _ => []
  | f + 1, n => if n < 10 then [digitChar10 n] else natChars f (n / 10) ++ [digitChar10 (n % 10)]

/-- Canonical decimal string of a natural number. -/
def natDecS (n : Nat) : String := String.mk (natChars (n + 1) n)

/-- Exact decimal string of an integer, with a leading minus sign for
negative values: the behaviour of strconv.Itoa and strconv.AppendInt
(used at src/unnamed/part_001 lines 112, 257, 280, 285, 318). -/
def intDecimal (i : Int) : String :=
  if i < 0 then "-" ++ natDecS i.natAbs else natDecS i.natAbs

/-- Truncation of the exact fraction a / b toward zero: the semantics of
Go's conversion int(f) applied to an exactly-represented fraction. -/
def itrunc (a : Int) (b : Nat) : Int :=
  if 0 ≤ a then a / (b : Int) else -((-a) / (b : Int))

/-- FloatToString from src/unnamed/part_001 lines 271-288 (structurally
identical to src/logger.go lines 260-277), on the exact fraction
num / den: the zero check, truncating conversion of the value and of the
scaled fractional part, and the single-character zero padding.  The Go
expression int((f - float64(integerPart)) * 100) is the truncation of
((num - integerPart * den) * 100) / den, which is exact on fractions. -/
def floatToStringF (num : Int) (den : Nat) : String :=
  if num = 0 then "0.00"
  else
    let integerPart : Int := itrunc num den
    let decimalPart : Int := itrunc ((num - integerPart * (den : Int)) * 100) den
    intDecimal integerPart ++ "." ++ (if decimalPart < 10 then "0" else "") ++ intDecimal decimalPart

/-- Specification-side comparator for the float clause of claim C7: the
fixed two-decimal-place representation of the nonnegative fraction
num / den whose fractional digits are obtained by truncating the value to
hundredths (truncation, not rounding), written integer part, a dot, and
exactly two fractional digits. -/
def specFixedTwo (num : Int) (den : Nat) : String :=
  let n : Nat := (itrunc (num * 100) den).toNat
  natDecS (n / 100) ++ "." ++ (if n % 100 < 10 then "0" else "") ++ natDecS (n % 100)

/-- Heterogeneous values accepted for fields and format arguments: the
interface value cases distinguished by valueToString (string, int,
float64 as an exact fraction, bool, and the default case). -/
inductive GoValue where
  | str : String → GoValue
  | int : Int → GoValue
  | float : Int → Nat → GoValue
  | boolean : Bool → GoValue
  | other : GoValue
deriving DecidableEq, Repr

/-- ValueToString from src/unnamed/part_001 lines 252-268: strings pass
through unchanged, ints through strconv.Itoa, float64 through
floatToString, booleans to the two literals, anything else to unknown. -/
def valueToString : GoValue → String
  | .str s => s
  | .int n => intDecimal n
  | .float a b => floatToStringF a b
  | .boolean b => if b then ("true") else ("false")
  | .other => "unknown"

/-- Rendered fragment of a field list: for each entry the loop at
src/unnamed/part_001 lines 135-141 appends a space, the key, a colon, a
space, and the double-quoted value.  The list order is the enumeration
order of the corresponding Go map range. -/
def renderFields : List (String × String) → List Char
  | [] => []
  | (k, v) :: rest => [' '] ++ k.data ++ [':', ' ', '"'] ++ v.data ++ ['"'] ++ renderFields rest

/-- Console rendering of one record: the buffer the log method fills at
src/unnamed/part_001 lines 110-152.  ID first, then the level code wrapped
in its color escape (with an immediate reset for Debug and Info only),
then timestamp, message, a comma when any field exists, the two field
fragments, and the newline. -/
def renderConsole (level : LogLevel) (timestamp message : String)
    (fields extraFields : List (String × String)) (logID : Int) : List Char :=
  ("ID:").data ++ (intDecimal logID).data ++ [' ']
  ++ (if level = .debugLevel ∨ level = .infoLevel then
        (getColor level).data ++ (levelString level).data ++ ("\x1b[0m").data
      else
        (getColor level).data ++ (levelString level).data)
  ++ [' '] ++ timestamp.data ++ [' '] ++ message.data
  ++ (if fields.length > 0 ∨ extraFields.length > 0 then [','] else [])
  ++ renderFields fields ++ renderFields extraFields ++ ['\n']

/-- File rendering of one record: buildLogMessage from src/unnamed/part_001
lines 172-212.  Same layout as the console buffer; the level code is
color-wrapped only when the colored argument is true (the log method always
passes false). -/
def buildLogMessage (level : LogLevel) (timestamp message : String)
    (fields extraFields : List (String × String)) (colored : Bool) (logID : Int) : List Char :=
  ("ID:").data ++ (intDecimal logID).data ++ [' ']
  ++ (if colored then
        (getColor level).data ++ (levelString level).data ++ ("\x1b[0m").data
      else
        (levelString level).data)
  ++ [' '] ++ timestamp.data ++ [' '] ++ message.data
  ++ (if fields.length > 0 ∨ extraFields.length > 0 then [','] else [])
  ++ renderFields fields ++ renderFields extraFields ++ ['\n']

/-- Logger state, from the struct at src/unnamed/part_001 lines 34-41.
The output writer and the file handle are modelled by numeric tags (the
file is none when no log file is configured); the mutex only serialises
field access and has no observable effect in the sequential model. -/
structure Logger where
  level : LogLevel
  output : Nat
  file : Option Nat
  colored : Bool
  fields : List (String × String)
deriving DecidableEq, Repr

/-- Result of one emission call: the bytes each sink receives during the
call (none when the sink receives nothing), the counter value after the
atomic increment, the sequence ID used, and the logger as the call leaves
it. -/
structure EmitOutput where
  console : Option (List Char)
  fileOut : Option (List Char)
  newCounter : Int
  logID : Int
  logger' : Logger
deriving DecidableEq, Repr

/-- Core emission, the log method at src/unnamed/part_001 lines 101-169:
increment the shared counter atomically, render the colorized buffer, write
a plain buildLogMessage line to the file whenever a file is configured
(unconditionally on the level), and write the buffer to the primary output
only when the record's level reaches the configured minimum, followed by a
trailing reset escape when the level is Warn or Error and color is enabled.
The method assigns no field of the receiver, which the returned logger'
records field by field. -/
def Logger.log (l : Logger) (level : LogLevel) (message : String)
    (extraFields : List (String × String)) (timestamp : String) (counter : Int) : EmitOutput :=
  let logID := wrap32 (counter + 1)
  let buf := renderConsole level timestamp message l.fields extraFields logID
  let fileOut :=
    if l.file.isSome then
      some (buildLogMessage level timestamp message l.fields extraFields false logID)
    else none
  let console :=
    if rank l.level ≤ rank level then
      some (buf ++ (if (level = .warnLevel ∨ level = .errorLevel) ∧ l.colored then ("\x1b[0m").data else []))
    else none
  { console := console
    fileOut := fileOut
    newCounter := logID
    logID := logID
    logger' := { level := l.level, output := l.output, file := l.file
                 colored := l.colored, fields := l.fields } }

/-- Level-name parsing, logLevelFromString at src/unnamed/part_001
lines 51-68: the six lower-case names map to their levels and anything
else defaults to Info. -/
def logLevelFromString (levelStr : String) : LogLevel :=
  if levelStr = "debug" then .debugLevel
  else if levelStr = "info" then .infoLevel
  else if levelStr = "warn" then .warnLevel
  else if levelStr = "error" then .errorLevel
  else if levelStr = "panic" then .panicLevel
  else if levelStr = "trace" then .traceLevel
  else .infoLevel

/-- Construction, NewLogger at src/unnamed/part_001 lines 71-90.  The
outcome of os.OpenFile is external input, passed in as openResult (none
models an open error, after which the code falls back to no file); an
empty path configures no file at all.  The field store starts empty. -/
def NewLogger (levelStr : String) (output : Nat) (colored : Bool)
    (logFilePath : String) (openResult : Option Nat) : Logger :=
  { level := logLevelFromString levelStr
    output := output
    file := if logFilePath = "" then none else openResult
    colored := colored
    fields := [] }

/-- Per-level emission method Info (src/unnamed/part_001 line 291). -/
def Logger.Info (l : Logger) (message timestamp : String) (counter : Int) : EmitOutput :=
  l.log .infoLevel message [] timestamp counter

/-- Per-level emission method Warn (src/unnamed/part_001 line 292). -/
def Logger.Warn (l : Logger) (message timestamp : String) (counter : Int) : EmitOutput :=
  l.log .warnLevel message [] timestamp counter

/-- Per-level emission method Error (src/unnamed/part_001 line 293). -/
def Logger.Error (l : Logger) (message timestamp : String) (counter : Int) : EmitOutput :=
  l.log .errorLevel message [] timestamp counter

/-- Per-level emission method Panic (src/unnamed/part_001 line 294). -/
def Logger.Panic (l : Logger) (message timestamp : String) (counter : Int) : EmitOutput :=
  l.log .panicLevel message [] timestamp counter

/-- Per-level emission method Debug (src/unnamed/part_001 line 295). -/
def Logger.Debug (l : Logger) (message timestamp : String) (counter : Int) : EmitOutput :=
  l.log .debugLevel message [] timestamp counter

/-- Per-level emission method Trace (src/unnamed/part_001 line 296). -/
def Logger.Trace (l : Logger) (message timestamp : String) (counter : Int) : EmitOutput :=
  l.log .traceLevel message [] timestamp counter

/-- Custom percent-substitution, formatMessage at src/unnamed/part_001
lines 307-331.  A percent before s, d or f substitutes the next argument
(s through valueToString on any value, d and f through a type assertion
that panics on a mismatch, modelled by none); a percent before any other
character is consumed without substituting while the following character
is reprocessed; a percent that is the final character is copied; every
other character is copied.  None models a panic (argument list exhausted
or type assertion failure). -/
def formatMessage : List Char → List GoValue → Option (List Char)
  | [], _ => some []
  | c :: rest, args =>
    if c = '%' then
      match rest with
      | [] => some [c]
      | c2 :: rest2 =>
        if c2 = 's' then
          match args with
          | [] => none
          | a :: as => (formatMessage rest2 as).map (fun r => (valueToString a).data ++ r)
        else if c2 = 'd' then
          match args with
          | .int m :: as => (formatMessage rest2 as).map (fun r => (intDecimal m).data ++ r)
          | _ => none
        else if c2 = 'f' then
          match args with
          | .float a b :: as => (formatMessage rest2 as).map (fun r => (floatToStringF a b).data ++ r)
          | _ => none
        else formatMessage (c2 :: rest2) args
    else (formatMessage rest args).map (fun r => c :: r)

/-- Formatted emission method Infof (src/unnamed/part_001 line 299).  The
result is none exactly when formatMessage panics. -/
def Logger.Infof (l : Logger) (format : String) (args : List GoValue)
    (timestamp : String) (counter : Int) : Option EmitOutput :=
  (formatMessage format.data args).map (fun m => l.log .infoLevel (String.mk m) [] timestamp counter)

/-- Formatted emission method Debugf (src/unnamed/part_001 line 300). -/
def Logger.Debugf (l : Logger) (format : String) (args : List GoValue)
    (timestamp : String) (counter : Int) : Option EmitOutput :=
  (formatMessage format.data args).map (fun m => l.log .debugLevel (String.mk m) [] timestamp counter)

/-- Formatted emission method Warnf (src/unnamed/part_001 line 301). -/
def Logger.Warnf (l : Logger) (format : String) (args : List GoValue)
    (timestamp : String) (counter : Int) : Option EmitOutput :=
  (formatMessage format.data args).map (fun m => l.log .warnLevel (String.mk m) [] timestamp counter)

/-- Formatted emission method Errorf (src/unnamed/part_001 line 302). -/
def Logger.Errorf (l : Logger) (format : String) (args : List GoValue)
    (timestamp : String) (counter : Int) : Option EmitOutput :=
  (formatMessage format.data args).map (fun m => l.log .errorLevel (String.mk m) [] timestamp counter)

/-- Formatted emission method Panicf (src/unnamed/part_001 line 303). -/
def Logger.Panicf (l : Logger) (format : String) (args : List GoValue)
    (timestamp : String) (counter : Int) : Option EmitOutput :=
  (formatMessage format.data args).map (fun m => l.log .panicLevel (String.mk m) [] timestamp counter)

/-- Formatted emission method Tracef (src/unnamed/part_001 line 304). -/
def Logger.Tracef (l : Logger) (format : String) (args : List GoValue)
    (timestamp : String) (counter : Int) : Option EmitOutput :=
  (formatMessage format.data args).map (fun m => l.log .traceLevel (String.mk m) [] timestamp counter)

/-- Placeholder tokens used to state the formatted-emission claim: a
format string is described as literal characters interleaved with the
three recognized placeholders. -/
inductive FmtTok where
  | lit : Char → FmtTok
  | phS : FmtTok
  | phD : FmtTok
  | phF : FmtTok
deriving DecidableEq, Repr

/-- Encoding of a token list back into the format string it describes. -/
def toFormat : List FmtTok → List Char
  | [] => []
  | .lit c :: ts => c :: toFormat ts
  | .phS :: ts => '%' :: 's' :: toFormat ts
  | .phD :: ts => '%' :: 'd' :: toFormat ts
  | .phF :: ts => '%' :: 'f' :: toFormat ts

/-- Specification-side substitution for claim C9: each placeholder is
replaced by the rendering of the corresponding argument taken in order,
and every literal character is copied through verbatim. -/
def specSubst : List FmtTok → List GoValue → List Char
  | [], _ => []
  | .lit c :: ts, args => c :: specSubst ts args
  | .phS :: ts, a :: as => (valueToString a).data ++ specSubst ts as
  | .phD :: ts, .int n :: as => (intDecimal n).data ++ specSubst ts as
  | .phF :: ts, .float a b :: as => (floatToStringF a b).data ++ specSubst ts as
  | _ :: _, _ => []

/-- Positional matching of an argument list against a token list: every
placeholder finds an argument of the kind its substitution requires
(arguments beyond the placeholders are permitted and ignored, as in the
code). -/
def argsMatchB : List FmtTok → List GoValue → Bool
  | [], _ => true
  | .lit _ :: ts, args => argsMatchB ts args
  | .phS :: ts, _ :: as => argsMatchB ts as
  | .phD :: ts, .int _ :: as => argsMatchB ts as
  | .phF :: ts, .float _ _ :: as => argsMatchB ts as
  | _, _ => false

/-- Token lists whose literal characters never include the percent sign,
so that their encoded format string contains a percent only where a
placeholder starts. -/
def noPercentLit (toks : List FmtTok) : Bool :=
  toks.all fun t =>
    match t with
    | .lit c => c != '%'
    | _ => true

/-- Association-list update with Go map semantics: an existing binding of
the key is replaced, otherwise the new binding is appended. -/
def mapInsert : List (String × String) → String → String → List (String × String)
  | [], k, v => [(k, v)]
  | (k0, v0) :: rest, k, v => if k0 = k then (k, v) :: rest else (k0, v0) :: mapInsert rest k v

/-- Association-list lookup with Go map semantics. -/
def lookupField : List (String × String) → String → Option String
  | [], _ => none
  | (k0, v0) :: rest, k => if k0 = k then some v0 else lookupField rest k

/-- Heap of field maps: the live field stores of all Logger instances,
addressed by allocation index.  Writing through one index observably
cannot change the map behind another index, which is what the
copy-on-derive claim is about. -/
abbrev FieldHeap := List (List (String × String))

/-- Logger whose field store lives in a FieldHeap at index fieldsRef. -/
structure LoggerRef where
  level : LogLevel
  output : Nat
  file : Option Nat
  colored : Bool
  fieldsRef : Nat
deriving DecidableEq, Repr

/-- Contents of the field store at the given heap index. -/
def heapRead (h : FieldHeap) (r : Nat) : List (String × String) :=
  h.getD r []

/-- AddField from src/unnamed/part_001 lines 231-249 (identical in
src/logger.go lines 220-238): allocate a fresh empty field map for the new
logger, copy the receiver's entries into it under the receiver's lock, then
insert the stringified new value under the key.  The receiver's own store
is never written; the new logger shares level, output, file handle and
color flag with the receiver. -/
def AddField (h : FieldHeap) (l : LoggerRef) (key : String) (value : GoValue) :
    FieldHeap × LoggerRef :=
  let copied := heapRead h l.fieldsRef
  let newMap := mapInsert copied key (valueToString value)
  (h ++ [newMap],
   { level := l.level, output := l.output, file := l.file
     colored := l.colored, fieldsRef := h.length })

/-- View of a heap-based logger as a value-level Logger, for emission. -/
def toLogger (h : FieldHeap) (l : LoggerRef) : Logger :=
  { level := l.level, output := l.output, file := l.file
    colored := l.colored, fields := heapRead h l.fieldsRef }

/-- Repeated emission: n successive calls of the log method, each feeding
the counter the previous call left behind, collecting the sequence IDs the
calls were assigned. -/
def runLogs (l : Logger) : Int → Nat → List Int
  | _, 0 => []
  | c, n + 1 =>
    let r := l.log .infoLevel ("m") [] ("ts") c
    r.logID :: runLogs l r.newCounter n

/-- Digit-emission loop of intToString, src/logger.go lines 355-359, over
the ten-byte buffer declared at line 348.  The first argument is the
remaining buffer capacity (ten minus the write index); none models the
index-out-of-range panic of the write buf n when the capacity is exhausted
while digits remain.  The digits are produced least-significant first,
exactly as the loop writes them. -/
def intLoopGo : Nat → Nat → Option (List Char)
  | _, 0 => some []
  | 0, _ + 1 => none
  | f + 1, i + 1 => (intLoopGo f ((i + 1) / 10)).map (fun ds => digitChar10 ((i + 1) % 10) :: ds)

/-- IntToString from src/logger.go lines 344-368: zero short-circuits to
the string 0; otherwise the absolute value's digits are written into the
ten-byte buffer least-significant first, a minus sign is appended for
negative inputs (another write that panics when the digits already filled
the buffer), and the written prefix is reversed in place.  None models the
panic. -/
def intToStringGo (i : Int) : Option String :=
  if i = 0 then some ("0")
  else
    match intLoopGo 10 i.natAbs with
    | none => none
    | some ds =>
      if i < 0 then
        if 10 ≤ ds.length then none
        else some (String.mk ((ds ++ ['-']).reverse))
      else some (String.mk ds.reverse)

/-- ANSI stripping used to compare the two renderings: a two-state scanner
over the byte list that drops every escape sequence (an ESC byte followed
by everything up to and including the terminating m). -/
def stripGo : Bool → List Char → List Char
  | _, [] => []
  | false, c :: rest => if c = '\x1b' then stripGo true rest else c :: stripGo false rest
  | true, c :: rest => if c = 'm' then stripGo false rest else stripGo true rest

/-- Remove all ANSI escape sequences from a byte list. -/
def stripAnsi (l : List Char) : List Char := stripGo false l

/-- Claim C2: the primary (console) sink receives the rendered line exactly
when the record's level rank reaches the configured minimum's rank, and the
file sink receives a plain buildLogMessage rendering for every emission,
independent of both levels, whenever a file is configured. -/
theorem c2_level_filtering (l : Logger) (level : LogLevel) (msg ts : String)
    (ef : List (String × String)) (c : Int) :
    ((l.log level msg ef ts c).console.isSome ↔ rank l.level ≤ rank level)
    ∧ ((l.log level msg ef ts c).fileOut.isSome ↔ l.file.isSome)
    ∧ (l.log level msg ef ts c).fileOut
      = (if l.file.isSome then
          some (buildLogMessage level ts msg l.fields ef false (wrap32 (c + 1)))
        else none) := by
  refine ⟨?_, ?_, ?_⟩ <;> simp only [Logger.log] <;> split <;> simp_all

/-- Claim C1 (counterexample): for the logger built with minimum level info,
color disabled and no file, the first Info emission does not write the
escape-free line the claim describes; the line the primary sink receives
contains the escape byte 0x1B, because the log method wraps the level code
in its color escape unconditionally. -/
theorem c1_counterexample :
    ((NewLogger ("info") 0 false ("") none).log .infoLevel ("hello world!") []
        ("2024-10-10T10:24:44+06:00") 0).console
      ≠ some (("ID:1 INFO 2024-10-10T10:24:44+06:00 hello world!\n").data)
    ∧ '\x1b' ∈ (((NewLogger ("info") 0 false ("") none).log .infoLevel ("hello world!") []
        ("2024-10-10T10:24:44+06:00") 0).console.getD []) := by
  decide

/-- Claim C1 (amended): for a logger constructed with minimum level Info,
color disabled and no fields, the first emission Info(msg) writes to the
primary sink exactly one line of the form
ID:1 ESC[32mINFO ESC[0m timestamp message newline — the sequence ID first,
then the level code wrapped in its color escape and reset (present even
though color is disabled), then the timestamp, then the message, with no
trailing comma and no fields — and nothing to the file sink. -/
theorem c1_amended_first_info_line (out : Nat) (ts msg : String) :
    ((NewLogger ("info") out false ("") none).log .infoLevel msg [] ts 0).console
      = some (("ID:1 \x1b[32mINFO\x1b[0m ").data ++ ts.data ++ [' '] ++ msg.data ++ ['\n'])
    ∧ ((NewLogger ("info") out false ("") none).log .infoLevel msg [] ts 0).fileOut = none := by
  constructor
  · simp only [Logger.log, NewLogger, logLevelFromString, renderConsole, renderFields,
      List.append_assoc]
    rfl
  · rfl

theorem natChars_mem_digit (f : Nat) : ∀ n c, c ∈ natChars f n → ∃ d, d < 10 ∧ c = digitChar10 d := by
  induction f with
  | zero => intro n c h; simp [natChars] at h
  | succ f ih =>
    intro n c h
    by_cases hn : n < 10
    · simp [natChars, hn] at h
      exact ⟨n, hn, h⟩
    · simp only [natChars, if_neg hn, List.mem_append, List.mem_singleton] at h
      rcases h with h | h
      · exact ih _ _ h
      · exact ⟨n % 10, Nat.mod_lt _ (by norm_num), h⟩

theorem esc_not_mem_natChars (f n : Nat) : '\x1b' ∉ natChars f n := by
  intro h
  obtain ⟨d, hd, he⟩ := natChars_mem_digit f n _ h
  revert he
  interval_cases d <;> decide

theorem esc_not_mem_intDecimal (i : Int) : '\x1b' ∉ (intDecimal i).data := by
  unfold intDecimal natDecS
  split
  · rw [String.data_append]
    intro h
    rcases List.mem_append.mp h with h | h
    · revert h; decide
    · exact esc_not_mem_natChars _ _ h
  · exact esc_not_mem_natChars _ _

theorem esc_not_mem_renderFields (fs : List (String × String))
    (h : ∀ kv ∈ fs, '\x1b' ∉ (Prod.fst kv).data ∧ '\x1b' ∉ (Prod.snd kv).data) :
    '\x1b' ∉ renderFields fs := by
  induction fs with
  | nil => simp [renderFields]
  | cons kv rest ih =>
    obtain ⟨h1, h2⟩ := h kv (by simp)
    have hr := ih fun x hx => h x (by simp [hx])
    obtain ⟨k, v⟩ := kv
    simp only [renderFields, List.append_assoc, List.mem_append]
    intro hc
    rcases hc with hc | hc | hc | hc | hc | hc
    · revert hc; decide
    · exact h1 hc
    · revert hc; decide
    · exact h2 hc
    · revert hc; decide
    · exact hr hc

theorem esc_mem_renderConsole (lv : LogLevel) (ts msg : String)
    (fs ef : List (String × String)) (n : Int) : '\x1b' ∈ renderConsole lv ts msg fs ef n := by
  cases lv <;>
    first
      | exact List.mem_append_left _ (List.mem_append_left _ (List.mem_append_left _
          (List.mem_append_left _ (List.mem_append_left _ (List.mem_append_left _
          (List.mem_append_left _ (List.mem_append_left _ (List.mem_append_right _
          (List.mem_append_left _ (List.mem_append_left _ (by decide)))))))))))
      | exact List.mem_append_left _ (List.mem_append_left _ (List.mem_append_left _
          (List.mem_append_left _ (List.mem_append_left _ (List.mem_append_left _
          (List.mem_append_left _ (List.mem_append_left _ (List.mem_append_right _
          (List.mem_append_left _ (by decide))))))))))

/-- Claim C5 (counterexample): a logger constructed with color disabled
still produces a console rendering that contains the escape byte 0x1B, so
the console rendering does not contain 0x1B only when colorEnabled is
true. -/
theorem c5_counterexample :
    (NewLogger ("info") 0 false ("") none).colored = false
    ∧ '\x1b' ∈ (((NewLogger ("info") 0 false ("") none).log .infoLevel ("m") [] ("t") 0).console.getD []) := by
  decide

/-- Claim C5 (amended): for every record whose timestamp, message, field
keys and field values are free of the escape byte, the plain (file)
rendering never contains the byte 0x1B; the console rendering, by
contrast, always contains 0x1B — for every level and regardless of the
colorEnabled flag — because the level code is unconditionally wrapped in
its color escape; only the trailing reset written after Warn and Error
lines depends on colorEnabled. -/
theorem c5_amended_escape_codes (lv : LogLevel) (ts msg : String)
    (fs ef : List (String × String)) (n : Int)
    (hts : '\x1b' ∉ ts.data) (hmsg : '\x1b' ∉ msg.data)
    (hfs : ∀ kv ∈ fs, '\x1b' ∉ (Prod.fst kv).data ∧ '\x1b' ∉ (Prod.snd kv).data)
    (hef : ∀ kv ∈ ef, '\x1b' ∉ (Prod.fst kv).data ∧ '\x1b' ∉ (Prod.snd kv).data) :
    '\x1b' ∉ buildLogMessage lv ts msg fs ef false n
    ∧ '\x1b' ∈ renderConsole lv ts msg fs ef n := by
  refine ⟨?_, esc_mem_renderConsole lv ts msg fs ef n⟩
  have h3 : '\x1b' ∉ (levelString lv).data := by cases lv <;> decide
  have h6 : '\x1b' ∉ (if fs.length > 0 ∨ ef.length > 0 then [','] else ([] : List Char)) := by
    split <;> decide
  simp only [buildLogMessage, Bool.false_eq_true, if_false, List.append_assoc, List.mem_append,
    not_or]
  exact ⟨by decide, esc_not_mem_intDecimal n, by decide, h3, by decide, hts, by decide, hmsg,
    h6, esc_not_mem_renderFields fs hfs, esc_not_mem_renderFields ef hef, by decide⟩

/-- Claim C5 witness: the amended statement instantiated at a concrete
record. -/
theorem c5_witness :
    ('\x1b' ∉ ("t" : String).data)
    ∧ '\x1b' ∉ buildLogMessage .infoLevel ("t") ("m") [] [] false 1
    ∧ '\x1b' ∈ renderConsole .infoLevel ("t") ("m") [] [] 1 := by
  refine ⟨by decide, ?_⟩
  have h := c5_amended_escape_codes .infoLevel ("t") ("m") [] [] 1 (by decide) (by decide)
    (by simp) (by simp)
  exact h

theorem stripGo_append_not_esc (xs : List Char) (h : '\x1b' ∉ xs) (ys : List Char) :
    stripGo false (xs ++ ys) = xs ++ stripGo false ys := by
  induction xs with
  | nil => rfl
  | cons c rest ih =>
    have hc : c ≠ '\x1b' := by rintro rfl; exact h (by simp)
    have hr : '\x1b' ∉ rest := fun hx => h (by simp [hx])
    simp only [List.cons_append, stripGo, if_neg hc, List.append_eq, ih hr]

theorem stripGo_levelPart (lv : LogLevel) (ys : List Char) :
    stripGo false
      ((if lv = .debugLevel ∨ lv = .infoLevel then
          (getColor lv).data ++ ((levelString lv).data ++ ("\x1b[0m").data)
        else
          (getColor lv).data ++ (levelString lv).data) ++ ys)
      = (levelString lv).data ++ stripGo false ys := by
  cases lv <;> rfl

theorem stripAnsi_renderConsole (lv : LogLevel) (ts msg : String)
    (fs ef : List (String × String)) (n : Int) (ys : List Char)
    (hts : '\x1b' ∉ ts.data) (hmsg : '\x1b' ∉ msg.data)
    (hfs : ∀ kv ∈ fs, '\x1b' ∉ (Prod.fst kv).data ∧ '\x1b' ∉ (Prod.snd kv).data)
    (hef : ∀ kv ∈ ef, '\x1b' ∉ (Prod.fst kv).data ∧ '\x1b' ∉ (Prod.snd kv).data)
    (hys : stripGo false ys = []) :
    stripGo false (renderConsole lv ts msg fs ef n ++ ys)
      = buildLogMessage lv ts msg fs ef false n := by
  have h6 : '\x1b' ∉ (if fs.length > 0 ∨ ef.length > 0 then [','] else ([] : List Char)) := by
    split <;> decide
  simp only [renderConsole, buildLogMessage, Bool.false_eq_true, if_false, List.append_assoc]
  rw [stripGo_append_not_esc _ (by decide),
      stripGo_append_not_esc _ (esc_not_mem_intDecimal n),
      stripGo_append_not_esc _ (by decide),
      stripGo_levelPart,
      stripGo_append_not_esc _ (by decide),
      stripGo_append_not_esc _ hts,
      stripGo_append_not_esc _ (by decide),
      stripGo_append_not_esc _ hmsg,
      stripGo_append_not_esc _ h6,
      stripGo_append_not_esc _ (esc_not_mem_renderFields fs hfs),
      stripGo_append_not_esc _ (esc_not_mem_renderFields ef hef),
      stripGo_append_not_esc _ (by decide),
      hys, List.append_nil]

/-- Claim C6 (counterexample): the console and file renderings of the same
record are not byte-for-byte identical after escape removal in general,
because the two sinks enumerate the same field map independently and Go
map enumeration order is unspecified: with two fields, one legitimate
enumeration order for the console line and another for the file line
yield lines that differ after stripping escapes. -/
theorem c6_counterexample :
    List.Perm [(("a" : String), ("1" : String)), ("b", "2")] [("b", "2"), ("a", "1")]
    ∧ stripAnsi (renderConsole .infoLevel ("t") ("m") [("a", "1"), ("b", "2")] [] 1)
      ≠ buildLogMessage .infoLevel ("t") ("m") [("b", "2"), ("a", "1")] [] false 1 := by
  decide

/-- Claim C6 (amended): for every record whose timestamp, message and
field entries are free of the escape byte, and whose two renderings
enumerate the merged field set in the same order, the line the file sink
receives is byte-for-byte the line the console sink receives with the
ANSI escape sequences removed — including the trailing reset the console
receives for colored Warn and Error lines. -/
theorem c6_amended_strip_equivalence (l : Logger) (lv : LogLevel) (msg ts : String)
    (ef : List (String × String)) (c : Int)
    (hts : '\x1b' ∉ ts.data) (hmsg : '\x1b' ∉ msg.data)
    (hfs : ∀ kv ∈ l.fields, '\x1b' ∉ (Prod.fst kv).data ∧ '\x1b' ∉ (Prod.snd kv).data)
    (hef : ∀ kv ∈ ef, '\x1b' ∉ (Prod.fst kv).data ∧ '\x1b' ∉ (Prod.snd kv).data)
    (hlev : rank l.level ≤ rank lv) (hfile : l.file.isSome = true) :
    stripAnsi (((l.log lv msg ef ts c).console).getD [])
      = ((l.log lv msg ef ts c).fileOut).getD [] := by
  have hys : stripGo false
      (if (lv = .warnLevel ∨ lv = .errorLevel) ∧ l.colored then ("\x1b[0m").data else []) = [] := by
    split <;> rfl
  simp only [Logger.log, if_pos hlev, if_pos hfile, Option.getD_some]
  exact stripAnsi_renderConsole lv ts msg l.fields ef (wrap32 (c + 1)) _ hts hmsg hfs hef hys

/-- Claim C6 witness: the amended statement instantiated at a concrete
colored Warn emission with one field and a configured file. -/
theorem c6_witness :
    stripAnsi (((Logger.mk .debugLevel 0 (some 1) true [("k", "v")]).log
          .warnLevel ("m") [] ("t") 0).console.getD [])
      = ((Logger.mk .debugLevel 0 (some 1) true [("k", "v")]).log
          .warnLevel ("m") [] ("t") 0).fileOut.getD [] := by
  exact c6_amended_strip_equivalence _ .warnLevel ("m") ("t") [] 0 (by decide) (by decide)
    (by decide) (by simp) (by decide) (by decide)

theorem emod_shift (x y : Int) : (x % int32Mod + y) % int32Mod = (x + y) % int32Mod := by
  have h : x % int32Mod + y = x + y + int32Mod * (-(x / int32Mod)) := by
    rw [Int.emod_def]; ring
  rw [h, Int.add_mul_emod_self_left]

theorem wrap32_add_wrap (a b : Int) : wrap32 (wrap32 a + b) = wrap32 (a + b) := by
  unfold wrap32
  rw [show (a + int32Half) % int32Mod - int32Half + b + int32Half
      = (a + int32Half) % int32Mod + b from by ring, emod_shift,
    show a + int32Half + b = a + b + int32Half from by ring]

theorem runLogs_eq_map (l : Logger) (c : Int) (n : Nat) :
    runLogs l c n = (List.range n).map (fun (i : Nat) => wrap32 (c + ((i : Int) + 1))) := by
  induction n generalizing c with
  | zero => rfl
  | succ n ih =>
    simp only [runLogs, Logger.log]
    rw [ih, List.range_succ_eq_map, List.map_cons, List.map_map]
    refine congrArg₂ List.cons (by norm_num) ?_
    refine List.map_congr_left fun i _ => ?_
    simp only [Function.comp]
    rw [wrap32_add_wrap]
    congr 1
    push_cast
    ring

theorem runLogs_nodup (l : Logger) (c : Int) (n : Nat) (hn : n ≤ 4294967296) :
    (runLogs l c n).Nodup := by
  rw [runLogs_eq_map]
  refine List.Nodup.map_on ?_ (List.nodup_range n)
  intro i hi j hj hf
  have hd : (wrap32 (c + ((i : Int) + 1)) - wrap32 (c + ((j : Int) + 1))) = 0 := by rw [hf]; ring
  unfold wrap32 at hd
  have hd2 : ((c + ((i : Int) + 1) + int32Half) - (c + ((j : Int) + 1) + int32Half)) % int32Mod
      = 0 := by
    rw [Int.sub_emod, show (c + ((i : Int) + 1) + int32Half) % int32Mod
        = (c + ((j : Int) + 1) + int32Half) % int32Mod from by omega, sub_self, Int.zero_emod]
  have hd3 : ((i : Int) - (j : Int)) % int32Mod = 0 := by
    rw [show c + ((i : Int) + 1) + int32Half - (c + ((j : Int) + 1) + int32Half)
        = (i : Int) - (j : Int) from by ring] at hd2
    exact hd2
  obtain ⟨k, hk⟩ := Int.dvd_of_emod_eq_zero hd3
  have hi2 := List.mem_range.mp hi
  have hj2 := List.mem_range.mp hj
  simp only [int32Mod] at hk
  omega

theorem runLogs_chain (l : Logger) (c : Int) (n : Nat) :
    List.Chain' (fun a b => b = wrap32 (a + 1)) (runLogs l c n) := by
  induction n generalizing c with
  | zero => simp [runLogs]
  | succ n ih =>
    cases n with
    | zero => simp [runLogs]
    | succ m =>
      have e1 : runLogs l c (m + 2)
          = wrap32 (c + 1) :: wrap32 (wrap32 (c + 1) + 1)
            :: runLogs l (wrap32 (wrap32 (c + 1) + 1)) m := rfl
      rw [e1, List.chain'_cons]
      refine ⟨rfl, ?_⟩
      have h2 := ih (wrap32 (c + 1))
      rw [show runLogs l (wrap32 (c + 1)) (m + 1)
          = wrap32 (wrap32 (c + 1) + 1) :: runLogs l (wrap32 (wrap32 (c + 1) + 1)) m from rfl] at h2
      exact h2

/-- Claim C3: every emission obtains its sequence ID by incrementing the
shared counter by exactly one (the ID is wrap32 of counter plus one and
becomes the new counter value); the IDs issued by n successive emission
calls with no other emitter active are the n consecutive values following
the starting counter, pairwise distinct as long as n does not exceed the
32-bit period, and each successive ID is the 32-bit successor of the
previous one (strictly increasing modulo wraparound). -/
theorem c3_sequence_ids (l : Logger) (c : Int) (n : Nat) (hn : n ≤ 4294967296) :
    (∀ lv msg ef ts c0, ((l.log lv msg ef ts c0).logID = wrap32 (c0 + 1)
        ∧ (l.log lv msg ef ts c0).newCounter = wrap32 (c0 + 1)))
    ∧ runLogs l c n = (List.range n).map (fun (i : Nat) => wrap32 (c + ((i : Int) + 1)))
    ∧ (runLogs l c n).Nodup
    ∧ List.Chain' (fun a b => b = wrap32 (a + 1)) (runLogs l c n) :=
  ⟨fun _ _ _ _ _ => ⟨rfl, rfl⟩, runLogs_eq_map l c n, runLogs_nodup l c n hn,
    runLogs_chain l c n⟩

/-- Claim C3 witness: three successive emissions from counter zero receive
the IDs one, two, three. -/
theorem c3_witness :
    3 ≤ 4294967296 ∧ runLogs (Logger.mk .infoLevel 0 none false []) 0 3 = [1, 2, 3] := by
  refine ⟨by norm_num, ?_⟩
  have h := (c3_sequence_ids (Logger.mk .infoLevel 0 none false []) 0 3 (by norm_num)).2.1
  rw [h]
  decide

theorem heapRead_append_lt (h : FieldHeap) (m : List (String × String)) (r : Nat)
    (hr : r < h.length) : heapRead (h ++ [m]) r = heapRead h r := by
  induction h generalizing r with
  | nil => simp at hr
  | cons a t ih =>
    cases r with
    | zero => rfl
    | succ r2 =>
      simp only [List.cons_append, heapRead, List.getD_cons_succ]
      exact ih r2 (by simpa using hr)

theorem heapRead_append_self (h : FieldHeap) (m : List (String × String)) :
    heapRead (h ++ [m]) h.length = m := by
  induction h with
  | nil => rfl
  | cons a t ih =>
    simp only [List.cons_append, List.length_cons, heapRead, List.getD_cons_succ]
    exact ih

theorem lookup_mapInsert (fs : List (String × String)) (k v q : String) :
    lookupField (mapInsert fs k v) q = if q = k then some v else lookupField fs q := by
  induction fs with
  | nil =>
    by_cases hq : q = k
    · subst hq; simp [mapInsert, lookupField]
    · simp [mapInsert, lookupField, hq, Ne.symm hq]
  | cons kv rest ih =>
    obtain ⟨k0, v0⟩ := kv
    by_cases h0 : k0 = k
    · subst h0
      by_cases hq : q = k0
      · subst hq; simp [mapInsert, lookupField]
      · simp [mapInsert, lookupField, hq, Ne.symm hq]
    · by_cases hq : k0 = q
      · subst hq
        simp [mapInsert, lookupField, h0]
      · simp [mapInsert, lookupField, h0, hq, ih]

theorem lookup_none_not_mem (fs : List (String × String)) (k : String)
    (h : lookupField fs k = none) : ∀ x, (k, x) ∉ fs := by
  induction fs with
  | nil => simp
  | cons kv rest ih =>
    obtain ⟨k0, v0⟩ := kv
    intro x hx
    simp only [lookupField] at h
    by_cases h0 : k0 = k
    · rw [if_pos h0] at h; exact Option.noConfusion h
    · rw [if_neg h0] at h
      rcases List.mem_cons.mp hx with he | hm
      · exact h0 (congrArg Prod.fst he).symm
      · exact ih h x hm

/-- Claim C4: AddField leaves the receiver's field store untouched on the
heap (emitting from the receiver afterwards produces exactly the output it
produced before, and a key absent before is still absent), and returns a
new logger that shares the receiver's minimum level, output sink, file
handle and color flag, whose freshly allocated field store holds a copy of
the receiver's entries plus the one new entry binding the key to the
stringified value. -/
theorem c4_addField_copy (h : FieldHeap) (l : LoggerRef) (k : String) (v : GoValue)
    (hl : l.fieldsRef < h.length) :
    ((AddField h l k v).2.level = l.level)
    ∧ ((AddField h l k v).2.output = l.output)
    ∧ ((AddField h l k v).2.file = l.file)
    ∧ ((AddField h l k v).2.colored = l.colored)
    ∧ heapRead (AddField h l k v).1 (AddField h l k v).2.fieldsRef
        = mapInsert (heapRead h l.fieldsRef) k (valueToString v)
    ∧ (∀ q, lookupField (heapRead (AddField h l k v).1 (AddField h l k v).2.fieldsRef) q
        = if q = k then some (valueToString v) else lookupField (heapRead h l.fieldsRef) q)
    ∧ heapRead (AddField h l k v).1 l.fieldsRef = heapRead h l.fieldsRef
    ∧ (∀ lv msg ef ts c, (toLogger (AddField h l k v).1 l).log lv msg ef ts c
        = (toLogger h l).log lv msg ef ts c)
    ∧ (lookupField (heapRead h l.fieldsRef) k = none
        → ∀ x, (k, x) ∉ heapRead (AddField h l k v).1 l.fieldsRef) := by
  have hbase : heapRead (AddField h l k v).1 l.fieldsRef = heapRead h l.fieldsRef :=
    heapRead_append_lt h _ l.fieldsRef hl
  have hnew : heapRead (AddField h l k v).1 (AddField h l k v).2.fieldsRef
      = mapInsert (heapRead h l.fieldsRef) k (valueToString v) := by
    simpa [AddField] using heapRead_append_self h (mapInsert (heapRead h l.fieldsRef) k (valueToString v))
  refine ⟨rfl, rfl, rfl, rfl, hnew, ?_, hbase, ?_, ?_⟩
  · intro q; rw [hnew]; exact lookup_mapInsert _ _ _ _
  · intro lv msg ef ts c; unfold toLogger; rw [hbase]
  · intro hnone x; rw [hbase]; exact lookup_none_not_mem _ _ hnone x

/-- Claim C4 witness: deriving a child logger over a concrete one-map heap
leaves the base logger's store unchanged. -/
theorem c4_witness :
    (LoggerRef.mk .infoLevel 0 none false 0).fieldsRef < ([[("a", "b")]] : FieldHeap).length
    ∧ heapRead (AddField [[("a", "b")]] (LoggerRef.mk .infoLevel 0 none false 0) ("k")
        (GoValue.str ("v"))).1 (LoggerRef.mk .infoLevel 0 none false 0).fieldsRef
      = [("a", "b")] := by
  refine ⟨by decide, ?_⟩
  have h := (c4_addField_copy [[("a", "b")]] (LoggerRef.mk .infoLevel 0 none false 0) ("k")
    (GoValue.str ("v")) (by decide)).2.2.2.2.2.2.1
  rw [h]
  decide

theorem itrunc_natCast (m den : Nat) : itrunc (m : Int) den = ((m / den : Nat) : Int) := by
  rw [itrunc, if_pos (Int.natCast_nonneg m)]
  exact (Int.natCast_div m den).symm

theorem intDecimal_natCast (m : Nat) : intDecimal (m : Int) = natDecS m := by
  rw [intDecimal, if_neg (Int.not_lt.mpr (Int.natCast_nonneg m))]
  simp

theorem floatToString_eq_specFixedTwo (num : Int) (den : Nat) (hnum : 0 ≤ num)
    (hden : den ≠ 0) : floatToStringF num den = specFixedTwo num den := by
  by_cases h0 : num = 0
  · subst h0
    have hz : itrunc ((0 : Int) * 100) den = 0 := by
      rw [zero_mul, itrunc, if_pos le_rfl]
      simp
    simp only [floatToStringF, specFixedTwo, if_pos rfl]
    rw [hz]
    simp only [if_true]
    decide
  · obtain ⟨N, rfl⟩ := Int.eq_ofNat_of_zero_le hnum
    have hdpos : 0 < den := Nat.pos_of_ne_zero hden
    have hNd := Nat.div_add_mod N den
    have hcast : ((N : Int)) = (den : Int) * ((N / den : Nat) : Int) + ((N % den : Nat) : Int) := by
      exact_mod_cast hNd.symm
    have hfrac : ((N : Int) - ((N / den : Nat) : Int) * (den : Int)) * 100
        = ((N % den * 100 : Nat) : Int) := by
      rw [hcast]
      push_cast
      ring
    have hsplit : N * 100 / den = 100 * (N / den) + (N % den * 100) / den := by
      conv_lhs => rw [← Nat.div_add_mod N den]
      rw [show (den * (N / den) + N % den) * 100
          = N % den * 100 + den * (100 * (N / den)) from by ring]
      rw [Nat.add_mul_div_left _ _ hdpos]
      ring
    have hbound : (N % den * 100) / den < 100 := by
      apply Nat.div_lt_of_lt_mul
      have hm := Nat.mod_lt N hdpos
      calc N % den * 100 < den * 100 := by omega
        _ = den * 100 := rfl
    obtain ⟨hq, hr⟩ : N * 100 / den / 100 = N / den
        ∧ (N * 100 / den) % 100 = N % den * 100 / den := by
      generalize hu : N * 100 / den = u at hsplit ⊢
      generalize ht : N / den = t at hsplit ⊢
      generalize hr2 : N % den * 100 / den = r at hsplit hbound ⊢
      omega
    simp only [floatToStringF, specFixedTwo, if_neg h0]
    rw [itrunc_natCast, hfrac, itrunc_natCast]
    rw [show ((N : Int)) * 100 = ((N * 100 : Nat) : Int) from by push_cast; ring]
    rw [itrunc_natCast, Int.toNat_natCast, hq, hr]
    rw [intDecimal_natCast, intDecimal_natCast]
    have hcond : (((N % den * 100 / den : Nat) : Int) < 10) ↔ N % den * 100 / den < 10 := by
      norm_cast
    rw [if_congr hcond rfl rfl]

/-- Claim C7 (counterexample): the stringification of a negative
non-integral float is not a fixed two-decimal-place representation: the
float -3.14 (the exact fraction -157/50) stringifies to -3.0-14, because
the zero-padding test and the second Itoa both receive the negative
truncated fractional part. -/
theorem c7_counterexample :
    valueToString (.float (-157) 50) = "-3.0-14"
    ∧ valueToString (.float (-157) 50) ≠ "-3.14" := by
  decide

/-- Claim C7 (amended): stringify maps a string to itself unchanged, true
and false to their literals, the float zero to the literal 0.00, any
unsupported value to the literal unknown, and every nonnegative float to
the fixed two-decimal-place representation whose fractional part is
obtained by truncation — in particular 3.146 stringifies to 3.14, not
3.15.  (Negative non-integral floats, excluded here, are the subject of
the counterexample.) -/
theorem c7_amended_stringify (num : Int) (den : Nat) (hnum : 0 ≤ num) (hden : den ≠ 0) :
    (∀ s, valueToString (.str s) = s)
    ∧ valueToString (.boolean true) = "true"
    ∧ valueToString (.boolean false) = "false"
    ∧ valueToString (.float 0 1) = "0.00"
    ∧ valueToString .other = "unknown"
    ∧ valueToString (.float 3146 1000) = "3.14"
    ∧ valueToString (.float num den) = specFixedTwo num den :=
  ⟨fun _ => rfl, rfl, rfl, by decide, rfl, by decide,
    floatToString_eq_specFixedTwo num den hnum hden⟩

/-- Claim C7 witness: the amended statement instantiated at the float
3.14 (the exact fraction 157/50). -/
theorem c7_witness :
    (0 ≤ (157 : Int)) ∧ ((50 : Nat) ≠ 0)
    ∧ valueToString (.float 157 50) = specFixedTwo 157 50 := by
  refine ⟨by norm_num, by norm_num, ?_⟩
  exact (c7_amended_stringify 157 50 (by norm_num) (by norm_num)).2.2.2.2.2.2

theorem natChars_stable (m : Nat) (hm : 0 < m) : ∀ a b, m < 10 ^ a → m < 10 ^ b →
    natChars a m = natChars b m := by
  induction m using Nat.strong_induction_on with
  | _ m ih =>
    intro a b ha hb
    cases a with
    | zero => simp at ha; omega
    | succ a' =>
      cases b with
      | zero => simp at hb; omega
      | succ b' =>
        by_cases hm10 : m < 10
        · simp [natChars, hm10]
        · have hma : m / 10 < 10 ^ a' := by
            rw [Nat.div_lt_iff_lt_mul (by norm_num)]
            calc m < 10 ^ (a' + 1) := ha
              _ = 10 ^ a' * 10 := by rw [Nat.pow_succ]
          have hmb : m / 10 < 10 ^ b' := by
            rw [Nat.div_lt_iff_lt_mul (by norm_num)]
            calc m < 10 ^ (b' + 1) := hb
              _ = 10 ^ b' * 10 := by rw [Nat.pow_succ]
          have hdiv : m / 10 < m := Nat.div_lt_self (by omega) (by norm_num)
          have hpos : 0 < m / 10 := Nat.div_pos (by omega) (by norm_num)
          simp only [natChars, if_neg hm10]
          rw [ih (m / 10) hdiv hpos a' b' hma hmb]

theorem lt_ten_pow_self (m : Nat) : m < 10 ^ m :=
  lt_of_lt_of_le (Nat.lt_two_pow m) (Nat.pow_le_pow_left (by norm_num) m)

theorem natChars_length (f : Nat) : ∀ m, (natChars f m).length ≤ f := by
  induction f with
  | zero => intro m; simp [natChars]
  | succ f ih =>
    intro m
    by_cases hm : m < 10
    · simp [natChars, hm]
    · simp only [natChars, if_neg hm, List.length_append, List.length_singleton]
      have := ih (m / 10)
      omega

theorem intLoopGo_zero_left (f : Nat) : intLoopGo f 0 = some [] := by
  cases f <;> rfl

theorem intLoopGo_eq (f : Nat) : ∀ m, 0 < m → m < 10 ^ f →
    intLoopGo f m = some ((natChars f m).reverse) := by
  induction f with
  | zero => intro m h1 h2; simp at h2; omega
  | succ f ih =>
    intro m h1 h2
    obtain ⟨i, rfl⟩ : ∃ i, m = i + 1 := ⟨m - 1, by omega⟩
    by_cases hm : i + 1 < 10
    · have hdiv : (i + 1) / 10 = 0 := Nat.div_eq_of_lt hm
      have hmod : (i + 1) % 10 = i + 1 := Nat.mod_eq_of_lt hm
      simp [intLoopGo, hdiv, hmod, intLoopGo_zero_left, natChars, hm]
    · have hma : (i + 1) / 10 < 10 ^ f := by
        rw [Nat.div_lt_iff_lt_mul (by norm_num)]
        calc i + 1 < 10 ^ (f + 1) := h2
          _ = 10 ^ f * 10 := by rw [Nat.pow_succ]
      have hpos : 0 < (i + 1) / 10 := Nat.div_pos (by omega) (by norm_num)
      simp only [intLoopGo, ih ((i + 1) / 10) hpos hma, Option.map_some]
      simp [natChars, if_neg hm]

theorem intLoopGo_none (f : Nat) : ∀ m, 10 ^ f ≤ m → intLoopGo f m = none := by
  induction f with
  | zero =>
    intro m hm
    obtain ⟨i, rfl⟩ : ∃ i, m = i + 1 := ⟨m - 1, by simp at hm; omega⟩
    rfl
  | succ f ih =>
    intro m hm
    have h10 : (10 : Nat) ^ (f + 1) ≥ 1 := Nat.one_le_two_pow.trans (Nat.pow_le_pow_left (by norm_num) _)
    obtain ⟨i, rfl⟩ : ∃ i, m = i + 1 := ⟨m - 1, by omega⟩
    have hge : 10 ^ f ≤ (i + 1) / 10 := by
      rw [Nat.le_div_iff_mul_le (by norm_num)]
      calc 10 ^ f * 10 = 10 ^ (f + 1) := (Nat.pow_succ 10 f).symm
        _ ≤ i + 1 := hm
    simp [intLoopGo, ih ((i + 1) / 10) hge]

theorem string_mk_cons (c : Char) (l : List Char) :
    String.mk [c] ++ String.mk l = String.mk (c :: l) := rfl

/-- Claim C8 (counterexample): intToString does not handle integers of
unrestricted magnitude: the eleven-digit value 10000000000 overruns the
ten-byte buffer (an index-out-of-range panic), even though its decimal
representation exists. -/
theorem c8_counterexample :
    intToStringGo 10000000000 = none ∧ intDecimal 10000000000 = "10000000000" := by
  decide

/-- Claim C8 (amended): for every integer i whose decimal form fits the
ten-byte buffer — nonnegative values below ten billion and negative
values above minus one billion (nine digits plus the sign) — intToString
returns the exact decimal textual representation of i, with a leading
minus sign for negative values, no leading zeros, and the correct digits;
outside that range the routine panics on the buffer write. -/
theorem c8_amended_intToString (i : Int) (h1 : -1000000000 < i) (h2 : i < 10000000000) :
    intToStringGo i = some (intDecimal i) := by
  by_cases hz : i = 0
  · subst hz; decide
  · by_cases hneg : i < 0
    · have hm1 : 0 < i.natAbs := by omega
      have hm2 : i.natAbs < 10 ^ 9 := by
        have h3 : i.natAbs < 1000000000 := by omega
        calc i.natAbs < 1000000000 := h3
          _ = 10 ^ 9 := by norm_num
      have hm2' : i.natAbs < 10 ^ 10 := lt_trans hm2 (by norm_num)
      have hloop := intLoopGo_eq 10 i.natAbs hm1 hm2'
      have hlen : ((natChars 10 i.natAbs).reverse).length ≤ 9 := by
        rw [List.length_reverse, natChars_stable i.natAbs hm1 10 9 hm2' hm2]
        exact natChars_length 9 i.natAbs
      simp only [intToStringGo, if_neg hz, hloop, if_pos hneg]
      rw [if_neg (by omega)]
      have hrev : (((natChars 10 i.natAbs).reverse ++ ['-']).reverse)
          = '-' :: natChars 10 i.natAbs := by
        rw [List.reverse_append, List.reverse_reverse]
        rfl
      rw [hrev, intDecimal, if_pos hneg, natDecS,
        natChars_stable i.natAbs hm1 10 (i.natAbs + 1) hm2' (lt_trans (lt_ten_pow_self _)
          (Nat.pow_lt_pow_right (by norm_num) (by omega))),
        string_mk_cons]
    · have hpos : 0 < i := by omega
      have hm1 : 0 < i.natAbs := by omega
      have hm2 : i.natAbs < 10 ^ 10 := by
        have h3 : i.natAbs < 10000000000 := by omega
        calc i.natAbs < 10000000000 := h3
          _ = 10 ^ 10 := by norm_num
      have hloop := intLoopGo_eq 10 i.natAbs hm1 hm2
      simp only [intToStringGo, if_neg hz, hloop, if_neg hneg, List.reverse_reverse]
      rw [intDecimal, if_neg hneg, natDecS,
        natChars_stable i.natAbs hm1 10 (i.natAbs + 1) hm2 (lt_trans (lt_ten_pow_self _)
          (Nat.pow_lt_pow_right (by norm_num) (by omega)))]

/-- Claim C8 witness: the amended statement at the in-range input -42. -/
theorem c8_witness :
    (-1000000000 < (-42 : Int)) ∧ ((-42 : Int) < 10000000000)
    ∧ intToStringGo (-42) = some (intDecimal (-42)) :=
  ⟨by norm_num, by norm_num, c8_amended_intToString (-42) (by norm_num) (by norm_num)⟩

/-- Claim C9 (counterexample): formatMessage does not copy every
non-placeholder character through verbatim: a percent sign that does not
begin one of the three placeholders is dropped, so the format a%xb with no
arguments produces axb instead of a%xb. -/
theorem c9_counterexample :
    formatMessage (("a%xb").data) [] = some (("axb").data)
    ∧ ("axb" : String) ≠ "a%xb" := by
  decide

/-- Claim C9 (amended): for every format string in which each percent sign
begins one of the placeholders (encoded by a token list without percent
literals) and every positionally matching argument list, formatMessage
substitutes each placeholder with the rendering of the corresponding
argument taken in order and copies every literal character through
verbatim; format strings with stray percent signs, excluded here, drop
them (the counterexample). -/
theorem formatMessage_cons_ne (c : Char) (rest : List Char) (args : List GoValue)
    (hc : c ≠ '%') :
    formatMessage (c :: rest) args = (formatMessage rest args).map (fun r => c :: r) := by
  conv_lhs => rw [formatMessage.eq_def]
  simp only [if_neg hc]

theorem c9_amended_formatMessage (toks : List FmtTok) (args : List GoValue)
    (h1 : noPercentLit toks = true) (h2 : argsMatchB toks args = true) :
    formatMessage (toFormat toks) args = some (specSubst toks args) := by
  induction toks generalizing args with
  | nil => rfl
  | cons t ts ih =>
    cases t with
    | lit c =>
      have hpair : (c != '%') = true ∧ noPercentLit ts = true := by
        simpa [noPercentLit, List.all_cons, Bool.and_eq_true] using h1
      have hc : c ≠ '%' := by simpa using hpair.1
      simp only [toFormat]
      rw [formatMessage_cons_ne c (toFormat ts) args hc, ih args hpair.2 h2]
      rfl
    | phS =>
      cases args with
      | nil => simp [argsMatchB] at h2
      | cons a as =>
        have e : formatMessage (toFormat (FmtTok.phS :: ts)) (a :: as)
            = (formatMessage (toFormat ts) as).map (fun r => (valueToString a).data ++ r) := rfl
        rw [e, ih as h1 h2]
        rfl
    | phD =>
      cases args with
      | nil => simp [argsMatchB] at h2
      | cons a as =>
        cases a with
        | int n =>
          have e : formatMessage (toFormat (FmtTok.phD :: ts)) (GoValue.int n :: as)
              = (formatMessage (toFormat ts) as).map (fun r => (intDecimal n).data ++ r) := rfl
          rw [e, ih as h1 h2]
          rfl
        | str s => simp [argsMatchB] at h2
        | float a b => simp [argsMatchB] at h2
        | boolean b => simp [argsMatchB] at h2
        | other => simp [argsMatchB] at h2
    | phF =>
      cases args with
      | nil => simp [argsMatchB] at h2
      | cons a as =>
        cases a with
        | float x y =>
          have e : formatMessage (toFormat (FmtTok.phF :: ts)) (GoValue.float x y :: as)
              = (formatMessage (toFormat ts) as).map (fun r => (floatToStringF x y).data ++ r) := rfl
          rw [e, ih as h1 h2]
          rfl
        | str s => simp [argsMatchB] at h2
        | int n => simp [argsMatchB] at h2
        | boolean b => simp [argsMatchB] at h2
        | other => simp [argsMatchB] at h2

/-- Claim C9 witness: the format a%dc with the single argument 42
produces a42c. -/
theorem c9_witness :
    noPercentLit [FmtTok.lit 'a', FmtTok.phD, FmtTok.lit 'c'] = true
    ∧ argsMatchB [FmtTok.lit 'a', FmtTok.phD, FmtTok.lit 'c'] [GoValue.int 42] = true
    ∧ formatMessage (toFormat [FmtTok.lit 'a', FmtTok.phD, FmtTok.lit 'c']) [GoValue.int 42]
      = some (("a42c").data) := by
  refine ⟨by decide, by decide, ?_⟩
  rw [c9_amended_formatMessage _ _ (by decide) (by decide)]
  decide

/-- Claim C10: no emission call modifies the logger's own state — after
any call of log or of the per-level methods the logger is exactly as
before (the log method assigns no receiver field, recorded field by field
in logger'), and for the formatted variants every produced outcome
likewise carries the unchanged logger; only the process-wide sequence
counter advances, to wrap32 of its predecessor plus one. -/
theorem c10_emission_frame (l : Logger) (lv : LogLevel) (msg ts : String)
    (ef : List (String × String)) (c : Int) (fmt : String) (args : List GoValue) :
    ((l.log lv msg ef ts c).logger' = l)
    ∧ ((l.log lv msg ef ts c).newCounter = wrap32 (c + 1))
    ∧ ((l.Info msg ts c).logger' = l) ∧ ((l.Warn msg ts c).logger' = l)
    ∧ ((l.Error msg ts c).logger' = l) ∧ ((l.Debug msg ts c).logger' = l)
    ∧ ((l.Panic msg ts c).logger' = l) ∧ ((l.Trace msg ts c).logger' = l)
    ∧ ((l.Infof fmt args ts c).map EmitOutput.logger' = (l.Infof fmt args ts c).map fun _ => l)
    ∧ ((l.Debugf fmt args ts c).map EmitOutput.logger' = (l.Debugf fmt args ts c).map fun _ => l)
    ∧ ((l.Warnf fmt args ts c).map EmitOutput.logger' = (l.Warnf fmt args ts c).map fun _ => l)
    ∧ ((l.Errorf fmt args ts c).map EmitOutput.logger' = (l.Errorf fmt args ts c).map fun _ => l)
    ∧ ((l.Panicf fmt args ts c).map EmitOutput.logger' = (l.Panicf fmt args ts c).map fun _ => l)
    ∧ ((l.Tracef fmt args ts c).map EmitOutput.logger'
        = (l.Tracef fmt args ts c).map fun _ => l) := by
  have hgen : ∀ (o : Option (List Char)) (lvl : LogLevel),
      ((o.map fun m => l.log lvl (String.mk m) [] ts c).map EmitOutput.logger')
        = ((o.map fun m => l.log lvl (String.mk m) [] ts c).map fun _ => l) := by
    intro o lvl
    cases o <;> rfl
  exact ⟨rfl, rfl, rfl, rfl, rfl, rfl, rfl, rfl, hgen _ _, hgen _ _, hgen _ _, hgen _ _,
    hgen _ _, hgen _ _⟩
